import Mathlib

/-!
Verification development for the Codex-Listener task supervisor
(`codex_listener/task_manager.py`, `codex_listener/models.py`,
`codex_listener/server.py`).

The Python code is shallowly embedded: datetimes become `Nat` timestamps,
Python dict/OrderedDict become insertion-ordered association lists, the
asyncio event loop becomes an explicit step relation on the supervisor
state (each synchronous block between `await` points is one atomic step),
and JSON values become an inductive `Json` type with a faithful
recursive-descent parser mirroring `json.JSONDecoder.raw_decode`.
-/

/-! ## Character and string helpers (Python `str.strip`, `"\n".join`, ...) -/

def wsChar (c : Char) : Bool :=
  c = ' ' || c = '\t' || c = '\n' || c = '\r'

def skipWs (cs : List Char) : List Char := cs.dropWhile wsChar

def stripChars (cs : List Char) : List Char :=
  ((cs.dropWhile wsChar).reverse.dropWhile wsChar).reverse

/-- Python `str.strip()` (on the ASCII whitespace set used by JSON). -/
def pyStrip (s : String) : String := ⟨stripChars s.data⟩

/-- Python `"\n".join(texts)`. -/
def joinNL : List String → String
  | [] => ""
  | [s] => s
  | s :: rest => s ++ "\n" ++ joinNL rest

/-- Match a literal pattern at the head of a char list, returning the rest. -/
def startsWithL : List Char → List Char → Option (List Char)
  | [], cs => some cs
  | _ :: _, [] => none
  | p :: ps, c :: cs => if c = p then startsWithL ps cs else none

/-- Case-insensitive variant (pattern given in lowercase); models `re.IGNORECASE`. -/
def startsWithCIL : List Char → List Char → Option (List Char)
  | [], cs => some cs
  | _ :: _, [] => none
  | p :: ps, c :: cs => if c.toLower = p then startsWithCIL ps cs else none

/-! ## JSON values

Python `json.loads` produces dicts/lists/str/int/float/bool/None.  Dicts are
insertion-ordered association lists; duplicate keys override in place as in
CPython. -/

inductive Json where
  | jnull : Json
  | jbool : Bool → Json
  | jint : Int → Json
  /-- A float literal, represented exactly as mantissa × 10^exponent. -/
  | jfloat : Int → Int → Json
  /-- The constants `NaN`, `Infinity` and `-Infinity`, which CPython's json
  scanner accepts by default (`parse_constant` maps them to floats). -/
  | jnan : Json
  | jinf : Json
  | jninf : Json
  | jstr : String → Json
  | jarr : List Json → Json
  | jobj : List (String × Json) → Json

abbrev JObj := List (String × Json)

/-- Python `dict.get(k)` on an insertion-ordered dict. -/
def jGet (o : JObj) (k : String) : Option Json :=
  match o with
  | [] => none
  | p :: rest => if p.1 = k then some p.2 else jGet rest k

/-- Python `dict.get(k, default)`. -/
def jGetD (o : JObj) (k : String) (d : Json) : Json :=
  match jGet o k with
  | some v => v
  | none => d

/-- Python `o.get(k) == s` for a string literal `s` (non-strings compare unequal). -/
def jStrIs (v : Option Json) (s : String) : Bool :=
  match v with
  | some (Json.jstr t) => t = s
  | _ => false

def typeIs (o : JObj) (s : String) : Bool := jStrIs (jGet o "type") s

/-- Python `dict[k] = v`: replace in place when the key exists, else append. -/
def objInsert (l : JObj) (k : String) (v : Json) : JObj :=
  match l with
  | [] => [(k, v)]
  | p :: rest => if p.1 = k then (k, v) :: rest else p :: objInsert rest k v

/-! ## A JSON parser mirroring `json.JSONDecoder.raw_decode`

Fuel-based recursion; each recursive call consumes at least one character,
so `length + 8` fuel always suffices for the inputs fed to it. -/

def hexVal (c : Char) : Option Nat :=
  if '0' ≤ c ∧ c ≤ '9' then some (c.toNat - 48)
  else if 'a' ≤ c ∧ c ≤ 'f' then some (c.toNat - 87)
  else if 'A' ≤ c ∧ c ≤ 'F' then some (c.toNat - 55)
  else none

/-- Parse the body of a JSON string literal (after the opening quote).
Python's strict mode rejects raw control characters. -/
def parseStr : Nat → List Char → List Char → Option (String × List Char)
  | 0, _, _ => none
  | _ + 1, [], _ => none
  | f + 1, c :: tl, acc =>
    if c = '"' then some (⟨acc.reverse⟩, tl)
    else if c = '\\' then
      match tl with
      | [] => none
      | e :: tl2 =>
        if e = '"' then parseStr f tl2 ('"' :: acc)
        else if e = '\\' then parseStr f tl2 ('\\' :: acc)
        else if e = '/' then parseStr f tl2 ('/' :: acc)
        else if e = 'b' then parseStr f tl2 (Char.ofNat 8 :: acc)
        else if e = 'f' then parseStr f tl2 (Char.ofNat 12 :: acc)
        else if e = 'n' then parseStr f tl2 ('\n' :: acc)
        else if e = 'r' then parseStr f tl2 ('\r' :: acc)
        else if e = 't' then parseStr f tl2 ('\t' :: acc)
        else if e = 'u' then
          match tl2 with
          | a :: b :: c2 :: d :: tl3 =>
            match hexVal a, hexVal b, hexVal c2, hexVal d with
            | some ha, some hb, some hc, some hd =>
              parseStr f tl3 (Char.ofNat (((ha * 16 + hb) * 16 + hc) * 16 + hd) :: acc)
            | _, _, _, _ => none
          | _ => none
        else none
    else if c.toNat < 32 then none
    else parseStr f tl (c :: acc)

def digitsToNat (ds : List Char) : Nat :=
  ds.foldl (fun n c => n * 10 + (c.toNat - 48)) 0

/-- Parse a JSON number per Python's `NUMBER_RE`:
`(-?(?:0|[1-9]\d*))(\.\d+)?([eE][-+]?\d+)?`.  An integer literal yields
`jint`; a fraction or exponent yields `jfloat`. -/
def parseNum (cs : List Char) : Option (Json × List Char) :=
  let (neg, cs1) := match cs with
    | '-' :: tl => (true, tl)
    | _ => (false, cs)
  let intPart : Option (List Char × List Char) := match cs1 with
    | '0' :: tl => some (['0'], tl)
    | c :: tl =>
      if c.isDigit ∧ c ≠ '0' then
        let (ds, rest) := tl.span Char.isDigit
        some (c :: ds, rest)
      else none
    | [] => none
  match intPart with
  | none => none
  | some (ids, r1) =>
    let (fracDs, r2) : List Char × List Char := match r1 with
      | '.' :: tl =>
        let (ds, rest) := tl.span Char.isDigit
        if ds = [] then ([], r1) else (ds, rest)
      | _ => ([], r1)
    let (expOk, expVal, r3) : Bool × Int × List Char := match r2 with
      | e :: tl =>
        if e = 'e' ∨ e = 'E' then
          let (esign, tl2) : Bool × List Char := match tl with
            | '-' :: tl3 => (true, tl3)
            | '+' :: tl3 => (false, tl3)
            | _ => (false, tl)
          let (ds, rest) := tl2.span Char.isDigit
          if ds = [] then (false, 0, r2)
          else (true, if esign then -(digitsToNat ds : Int) else (digitsToNat ds : Int), rest)
        else (false, 0, r2)
      | [] => (false, 0, r2)
    let mantNat := digitsToNat (ids ++ fracDs)
    let mant : Int := if neg then -(mantNat : Int) else (mantNat : Int)
    if fracDs = [] ∧ ¬ expOk then
      some (Json.jint mant, r3)
    else
      some (Json.jfloat mant (expVal - (fracDs.length : Int)), r3)

mutual

/-- One JSON value starting exactly at the head of the input (no leading
whitespace skipped), as `raw_decode` does. -/
def parseVal : Nat → List Char → Option (Json × List Char)
  | 0, _ => none
  | _ + 1, [] => none
  | f + 1, c :: tl =>
    if c = '{' then parseObjRest f (skipWs tl)
    else if c = '[' then parseArrRest f (skipWs tl)
    else if c = '"' then
      match parseStr (tl.length + 1) tl [] with
      | some (s, r) => some (Json.jstr s, r)
      | none => none
    else
      match startsWithL "null".data (c :: tl) with
      | some r => some (Json.jnull, r)
      | none =>
        match startsWithL "true".data (c :: tl) with
        | some r => some (Json.jbool true, r)
        | none =>
          match startsWithL "false".data (c :: tl) with
          | some r => some (Json.jbool false, r)
          | none =>
            match startsWithL "NaN".data (c :: tl) with
            | some r => some (Json.jnan, r)
            | none =>
              match startsWithL "Infinity".data (c :: tl) with
              | some r => some (Json.jinf, r)
              | none =>
                match startsWithL "-Infinity".data (c :: tl) with
                | some r => some (Json.jninf, r)
                | none => parseNum (c :: tl)

def parseObjRest : Nat → List Char → Option (Json × List Char)
  | 0, _ => none
  | f + 1, cs =>
    match cs with
    | '}' :: tl => some (Json.jobj [], tl)
    | _ => parseMembers f cs []

def parseMembers : Nat → List Char → JObj → Option (Json × List Char)
  | 0, _, _ => none
  | f + 1, cs, acc =>
    match cs with
    | '"' :: tl =>
      match parseStr (tl.length + 1) tl [] with
      | none => none
      | some (k, r1) =>
        match skipWs r1 with
        | ':' :: r2 =>
          match parseVal f (skipWs r2) with
          | none => none
          | some (v, r3) =>
            let acc2 := objInsert acc k v
            match skipWs r3 with
            | ',' :: r4 => parseMembers f (skipWs r4) acc2
            | '}' :: r4 => some (Json.jobj acc2, r4)
            | _ => none
        | _ => none
    | _ => none

def parseArrRest : Nat → List Char → Option (Json × List Char)
  | 0, _ => none
  | f + 1, cs =>
    match cs with
    | ']' :: tl => some (Json.jarr [], tl)
    | _ => parseElems f cs []

def parseElems : Nat → List Char → List Json → Option (Json × List Char)
  | 0, _, _ => none
  | f + 1, cs, acc =>
    match parseVal f cs with
    | none => none
    | some (v, r1) =>
      match skipWs r1 with
      | ',' :: r2 => parseElems f (skipWs r2) (acc ++ [v])
      | ']' :: r2 => some (Json.jarr (acc ++ [v]), r2)
      | _ => none

end

/-- Python `decoder.raw_decode(s)`: one value at the head of the input. -/
def rawDecode (cs : List Char) : Option (Json × List Char) :=
  parseVal (cs.length + 8) cs

/-- Python `json.loads(s)`: leading/trailing whitespace allowed, whole input. -/
def jloads (s : String) : Option Json :=
  match rawDecode (skipWs s.data) with
  | some (v, rest) => if skipWs rest = [] then some v else none
  | none => none

/-! ## Python `str()` / `repr()` of decoded JSON values

Only the string case is exercised by the repository's data flow; the
container cases model CPython's rendering closely enough to stay total. -/

def intStr (n : Int) : String := toString n

/-- Decimal rendering of mantissa × 10^exponent, matching CPython's float
`str` in its plain-decimal regime (magnitudes CPython renders in scientific
notation, and literals with redundant trailing zeros, remain approximate). -/
def floatStr (m : Int) (e : Int) : String :=
  let sign : String := if m < 0 then "-" else ""
  let ds := toString m.natAbs
  if 0 ≤ e then
    sign ++ ds ++ ⟨List.replicate e.toNat '0'⟩ ++ ".0"
  else
    let k := (-e).toNat
    if k < ds.length then
      sign ++ ⟨ds.data.take (ds.length - k)⟩ ++ "." ++ ⟨ds.data.drop (ds.length - k)⟩
    else
      sign ++ "0." ++ ⟨List.replicate (k - ds.length) '0'⟩ ++ ds

mutual

/-- Python `str(v)` of a decoded JSON value. -/
def pyStr : Json → String
  | Json.jnull => "None"
  | Json.jbool true => "True"
  | Json.jbool false => "False"
  | Json.jint n => intStr n
  | Json.jfloat m e => floatStr m e
  | Json.jnan => "nan"
  | Json.jinf => "inf"
  | Json.jninf => "-inf"
  | Json.jstr s => s
  | Json.jarr xs => "[" ++ pyReprList xs ++ "]"
  | Json.jobj fs => "\x7b" ++ pyReprFields fs ++ "\x7d"

/-- Python `repr(v)` (used by `str` inside containers). -/
def pyRepr : Json → String
  | Json.jnull => "None"
  | Json.jbool true => "True"
  | Json.jbool false => "False"
  | Json.jint n => intStr n
  | Json.jfloat m e => floatStr m e
  | Json.jnan => "nan"
  | Json.jinf => "inf"
  | Json.jninf => "-inf"
  | Json.jstr s => "\x27" ++ s ++ "\x27"
  | Json.jarr xs => "[" ++ pyReprList xs ++ "]"
  | Json.jobj fs => "\x7b" ++ pyReprFields fs ++ "\x7d"

def pyReprList : List Json → String
  | [] => ""
  | [x] => pyRepr x
  | x :: xs => pyRepr x ++ ", " ++ pyReprList xs

def pyReprFields : List (String × Json) → String
  | [] => ""
  | [(k, v)] => "\x27" ++ k ++ "\x27: " ++ pyRepr v
  | (k, v) :: fs => "\x27" ++ k ++ "\x27: " ++ pyRepr v ++ ", " ++ pyReprFields fs

end

/-! ## `json.dumps(v, ensure_ascii=False, indent=2)` -/

def hexDigit (n : Nat) : Char :=
  if n < 10 then Char.ofNat (48 + n) else Char.ofNat (87 + n)

def escChar (c : Char) : String :=
  if c = '"' then "\\\""
  else if c = '\\' then "\\\\"
  else if c = '\n' then "\\n"
  else if c = '\t' then "\\t"
  else if c = '\r' then "\\r"
  else if c.toNat < 32 then
    "\\u00" ++ ⟨[hexDigit (c.toNat / 16), hexDigit (c.toNat % 16)]⟩
  else String.singleton c

def escStr (s : String) : String := (s.data.map escChar).foldl (· ++ ·) ""

def indentSp (n : Nat) : String := ⟨List.replicate n ' '⟩

mutual

def dumps2 : Nat → Json → String
  | _, Json.jnull => "null"
  | _, Json.jbool true => "true"
  | _, Json.jbool false => "false"
  | _, Json.jint n => intStr n
  | _, Json.jfloat m e => floatStr m e
  | _, Json.jnan => "NaN"
  | _, Json.jinf => "Infinity"
  | _, Json.jninf => "-Infinity"
  | _, Json.jstr s => "\"" ++ escStr s ++ "\""
  | _, Json.jarr [] => "[]"
  | lvl, Json.jarr (x :: xs) =>
    "[\n" ++ dumpsElems (lvl + 1) (x :: xs) ++ "\n" ++ indentSp (2 * lvl) ++ "]"
  | _, Json.jobj [] => "\x7b\x7d"
  | lvl, Json.jobj (p :: fs) =>
    "\x7b\n" ++ dumpsFields (lvl + 1) (p :: fs) ++ "\n" ++ indentSp (2 * lvl) ++ "\x7d"

def dumpsElems : Nat → List Json → String
  | _, [] => ""
  | lvl, [x] => indentSp (2 * lvl) ++ dumps2 lvl x
  | lvl, x :: xs => indentSp (2 * lvl) ++ dumps2 lvl x ++ ",\n" ++ dumpsElems lvl xs

def dumpsFields : Nat → List (String × Json) → String
  | _, [] => ""
  | lvl, [(k, v)] => indentSp (2 * lvl) ++ "\"" ++ escStr k ++ "\": " ++ dumps2 lvl v
  | lvl, (k, v) :: fs =>
    indentSp (2 * lvl) ++ "\"" ++ escStr k ++ "\": " ++ dumps2 lvl v ++ ",\n" ++
      dumpsFields lvl fs

end

/-! ## Data model (`codex_listener/models.py`) -/

inductive Status where
  | pending | running | completed | failed
deriving DecidableEq

def statusStr : Status → String
  | Status.pending => "pending"
  | Status.running => "running"
  | Status.completed => "completed"
  | Status.failed => "failed"

inductive WorkflowMode where
  | normal | plan_bridge
deriving DecidableEq

inductive BridgeStage where
  | none | needs_input | plan_ready
deriving DecidableEq

/-- `models.TaskStatus` (pydantic model); datetimes are `Nat` timestamps. -/
structure TaskStatus where
  task_id : String
  status : Status
  pid : Option Nat := Option.none
  exit_code : Option Int := Option.none
  output : Option String := Option.none
  error : Option String := Option.none
  created_at : Nat
  completed_at : Option Nat := Option.none
  workflow_mode : WorkflowMode := WorkflowMode.normal
  parent_task_id : Option String := Option.none
  session_id : Option String := Option.none
  bridge_stage : BridgeStage := BridgeStage.none
  bridge_questions : Option (List String) := Option.none
  bridge_plan : Option String := Option.none
deriving DecidableEq

/-- `models.TaskCreate`. -/
structure TaskCreate where
  prompt : String
  model : String := "gpt-5.3-codex"
  cwd : String := "."
  sandbox : String := "danger-full-access"
  full_auto : Bool := true
  reasoning_effort : String := "high"
  workflow_mode : WorkflowMode := WorkflowMode.normal
  resume_session_id : Option String := Option.none
  parent_task_id : Option String := Option.none
deriving DecidableEq

/-! ## Output stream parser (`TaskManager._read_codex_output`)

The input is the sequence of JSON objects decoded from the worker's stdout
lines (blank and non-JSON lines are skipped by the loop before any of the
logic modeled here runs, so they are omitted from the stream type). -/

structure ParseState where
  lastMessage : Option String
  sessionId : Option String
deriving DecidableEq

/-- The session id retained by a `thread.started` event: present exactly when
`thread_id` is a string whose stripped form is non-empty. -/
def eventTid (o : JObj) : Option String :=
  if typeIs o "thread.started" then
    match jGet o "thread_id" with
    | some (Json.jstr tid) => if pyStrip tid = "" then none else some (pyStrip tid)
    | _ => none
  else none

/-- Texts of `output_text` fragments:
`[p.get("text", "") for p in parts if isinstance(p, dict) and p.get("type") == "output_text"]`.
A `content` value that is absent, a dict, or a string yields `[]` exactly as in
Python (iterating a dict visits string keys; a string yields characters). -/
def outputTexts (c : JObj) : List String :=
  let parts : List Json := match jGet c "content" with
    | some (Json.jarr xs) => xs
    | _ => []
  parts.filterMap fun p =>
    match p with
    | Json.jobj fs =>
      if typeIs fs "output_text" then
        some (match jGet fs "text" with
          | some (Json.jstr s) => s
          | _ => "")
      else none
    | _ => none

/-- Message text extracted from an `item.completed` item dict. -/
def itemMsg (item : JObj) : String :=
  if typeIs item "message" then pyStrip (joinNL (outputTexts item))
  else if typeIs item "agent_message" then pyStrip (pyStr (jGetD item "text" (Json.jstr "")))
  else ""

/-- The `msg` computed by the loop body for one event (empty when the event is
not a recognized assistant-message shape). -/
def eventMsg (o : JObj) : String :=
  if typeIs o "item.completed" then
    match jGet o "item" with
    | some (Json.jobj item) => itemMsg item
    | _ => ""
  else if typeIs o "response_item" then
    match jGet o "payload" with
    | some (Json.jobj p) =>
      if typeIs p "message" && jStrIs (jGet p "role") "assistant" then
        pyStrip (joinNL (outputTexts p))
      else ""
    | _ => ""
  else ""

/-- One iteration of the read loop: the `thread.started` branch runs first,
then `last_message` is overwritten when the extracted `msg` is truthy. -/
def processEvent (st : ParseState) (o : JObj) : ParseState :=
  let st1 := match eventTid o with
    | some tid => { st with sessionId := some tid }
    | none => st
  if eventMsg o = "" then st1 else { st1 with lastMessage := some (eventMsg o) }

/-- `_read_codex_output`: returns `(last_message, session_id)`. -/
def readCodexOutput (events : List JObj) : Option String × Option String :=
  let st := events.foldl processEvent ⟨none, none⟩
  (st.lastMessage, st.sessionId)

/-! ## Bridge payload extractor (`TaskManager._extract_bridge_payload`) -/

/-- Strategy 1: the whole stripped text is itself a JSON object. -/
def directCands (t : String) : List JObj :=
  let raw := (pyStrip t).data
  let headBrace : Bool := match raw with
    | c :: _ => c = '{'
    | [] => false
  let lastBrace : Bool := match raw.getLast? with
    | some c => c = '}'
    | none => false
  if headBrace && lastBrace then
    match jloads ⟨raw⟩ with
    | some (Json.jobj fs) => [fs]
    | _ => []
  else []

/-- Lazy search for the closing `}` of the fenced-block regex
`(\{[\s\S]*?\})\s*` followed by three backticks: the first `}` from which
whitespace then a closing fence follows ends the capture. -/
def findCloseF : Nat → List Char → List Char → Option (List Char × List Char)
  | 0, _, _ => none
  | _ + 1, _, [] => none
  | f + 1, acc, c :: tl =>
    if c = '}' then
      match startsWithL "```".data (tl.dropWhile wsChar) with
      | some r => some ('{' :: (acc.reverse ++ ['}']), r)
      | none => findCloseF f (c :: acc) tl
    else findCloseF f (c :: acc) tl

/-- Try to match `` ```(?:json)?\s*(\{[\s\S]*?\})\s*``` `` anchored at the head
of the input (case-insensitive `json` tag).  Returns the captured group and
the rest of the text after the match.  The optional `json` tag and the `\s*`
runs allow no real regex backtracking here: whitespace can never match `{` or
a backtick, and a leading `j` can never match `\s` or `{`. -/
def matchFenceAt (cs : List Char) : Option (List Char × List Char) :=
  match startsWithL "```".data cs with
  | none => none
  | some r1 =>
    let r2 := match startsWithCIL "json".data r1 with
      | some r => r
      | none => r1
    match (r2.dropWhile wsChar) with
    | '{' :: body => findCloseF (body.length + 1) [] body
    | _ => none

/-- `re.findall` over the whole text: try the pattern at every position,
resuming after each match. -/
def fenceBlocks : Nat → List Char → List (List Char)
  | 0, _ => []
  | _ + 1, [] => []
  | f + 1, c :: tl =>
    match matchFenceAt (c :: tl) with
    | some (blk, rest) => blk :: fenceBlocks f rest
    | none => fenceBlocks f tl

/-- Strategy 2: JSON objects inside fenced code blocks. -/
def fencedCands (t : String) : List JObj :=
  (fenceBlocks (t.data.length + 1) t.data).filterMap fun blk =>
    match jloads ⟨stripChars blk⟩ with
    | some (Json.jobj fs) => some fs
    | _ => none

/-- Strategy 3: scan from every `{` occurrence with `raw_decode`, resuming
after each successful parse (`idx = start + consumed`) and one character
later after a failure (`idx = start + 1`). -/
def scanCands : Nat → List Char → List JObj
  | 0, _ => []
  | _ + 1, [] => []
  | f + 1, c :: tl =>
    if c = '{' then
      match rawDecode (c :: tl) with
      | some (Json.jobj fs, rest) => fs :: scanCands f rest
      | some (_, rest) => scanCands f rest
      | none => scanCands f tl
    else scanCands f tl

/-- The selection loop over collected candidates, with the two `continue`
checks in source order. -/
def findBridge : List JObj → Option JObj
  | [] => none
  | o :: rest =>
    if !(jStrIs (jGet o "bridge") "planmode.v1") then findBridge rest
    else if jStrIs (jGet o "stage") "needs_input" || jStrIs (jGet o "stage") "plan_ready" then
      some o
    else findBridge rest

/-- The candidate predicate the loop implements. -/
def isBridgeObj (o : JObj) : Bool :=
  jStrIs (jGet o "bridge") "planmode.v1" &&
    (jStrIs (jGet o "stage") "needs_input" || jStrIs (jGet o "stage") "plan_ready")

def bridgeCandidates (t : String) : List JObj :=
  directCands t ++ fencedCands t ++ scanCands (t.data.length + 1) t.data

/-- `_extract_bridge_payload(text)`. -/
def extractBridgePayload (text : Option String) : Option JObj :=
  match text with
  | none => none
  | some t =>
    if t = "" then none
    else findBridge (bridgeCandidates t)

/-! ## Bridge payload application (`TaskManager._apply_bridge_payload`) -/

/-- Python `x is None` on a `dict.get` result, where a JSON `null` value also
reads back as Python `None`. -/
def jOptD (v : Option Json) : Option Json :=
  match v with
  | some Json.jnull => none
  | x => x

/-- `_apply_bridge_payload(task, payload)`. -/
def applyBridgePayload (t : TaskStatus) (payload : JObj) : TaskStatus :=
  if jStrIs (jGet payload "stage") "needs_input" then
    let qs : List String := match jGet payload "questions" with
      | some (Json.jarr xs) =>
        xs.filterMap fun q =>
          let s := pyStrip (pyStr q)
          if s = "" then none else some s
      | _ => []
    { t with bridge_questions := some qs, bridge_plan := none,
             bridge_stage := BridgeStage.needs_input }
  else if jStrIs (jGet payload "stage") "plan_ready" then
    let plan : Option Json := match jOptD (jGet payload "plan_markdown") with
      | some v => some v
      | none => jOptD (jGet payload "plan")
    let planText : String := match plan with
      | some (Json.jobj fs) => dumps2 0 (Json.jobj fs)
      | none => ""
      | some v => pyStrip (pyStr v)
    { t with bridge_plan := some planText, bridge_questions := none,
             bridge_stage := BridgeStage.plan_ready }
  else
    { t with bridge_stage := BridgeStage.none, bridge_questions := none,
             bridge_plan := none }

/-! ## The supervisor state (`TaskManager`)

`_tasks` and `_completed` become insertion-ordered association lists;
`_processes` and `_bg_tasks` carry no state the claims depend on (signals
are best-effort and mutate nothing).  Each synchronous block of Python
between `await` points is one atomic operation. -/

def lookupOD (l : List (String × TaskStatus)) (k : String) : Option TaskStatus :=
  match l with
  | [] => none
  | p :: rest => if p.1 = k then some p.2 else lookupOD rest k

/-- Python `dict[k] = v`. -/
def insertOD (l : List (String × TaskStatus)) (k : String) (v : TaskStatus) :
    List (String × TaskStatus) :=
  match l with
  | [] => [(k, v)]
  | p :: rest => if p.1 = k then (k, v) :: rest else p :: insertOD rest k v

/-- Python `dict.pop(k, None)`. -/
def removeOD (l : List (String × TaskStatus)) (k : String) : List (String × TaskStatus) :=
  match l with
  | [] => []
  | p :: rest => if p.1 = k then removeOD rest k else p :: removeOD rest k

/-- One bounded run of `while len(completed) > max_completed:
completed.popitem(last=False)`; the fuel argument only bounds the number of
iterations, and the loop pops at most `len(completed)` entries. -/
def evictGo : Nat → Nat → List (String × TaskStatus) → List (String × TaskStatus)
  | 0, _, l => l
  | f + 1, maxC, l => if maxC < l.length then evictGo f maxC l.tail else l

/-- `while len(completed) > max_completed: completed.popitem(last=False)`. -/
def evict (maxC : Nat) (l : List (String × TaskStatus)) : List (String × TaskStatus) :=
  evictGo l.length maxC l

structure TMState where
  maxConcurrent : Nat
  maxCompleted : Nat
  tasks : List (String × TaskStatus)
  completed : List (String × TaskStatus)
deriving DecidableEq

/-- `TaskManager.active_count`. -/
def activeCount (s : TMState) : Nat :=
  (s.tasks.filter fun p =>
    p.2.status = Status.pending ∨ p.2.status = Status.running).length

/-- `TaskManager.get_task` (`self._tasks.get(id) or self._completed.get(id)`;
a pydantic record is always truthy). -/
def getTask (s : TMState) (id : String) : Option TaskStatus :=
  match lookupOD s.tasks id with
  | some t => some t
  | none => lookupOD s.completed id

/-- `TaskManager.list_tasks`: merge live and archived, optionally filter by
the status string (an empty filter string is falsy and filters nothing),
sort by creation time descending (Python's `sorted` is stable). -/
def listTasks (s : TMState) (statusFilter : Option String) : List TaskStatus :=
  let all := (s.tasks.map Prod.snd) ++ (s.completed.map Prod.snd)
  let all := match statusFilter with
    | some f => if f = "" then all else all.filter fun t => statusStr t.status = f
    | none => all
  all.mergeSort fun a b => b.created_at ≤ a.created_at

/-- `TaskManager._archive_task`. -/
def archiveTask (s : TMState) (id : String) : TMState :=
  match lookupOD s.tasks id with
  | none => s
  | some t =>
    { s with tasks := removeOD s.tasks id,
             completed := evict s.maxCompleted (insertOD s.completed id t) }

/-- `TaskManager.create_task`: the admission check, record creation and
insertion.  The freshly generated id and the current time are parameters;
the spawned background coroutine is modeled by the separate step relation.
On capacity the `RuntimeError` propagates with the stores untouched.
`newTask` is the record literal built by `create_task`. -/
def newTask (req : TaskCreate) (newId : String) (now : Nat) : TaskStatus :=
  { task_id := newId, status := Status.pending, created_at := now,
    workflow_mode := req.workflow_mode, parent_task_id := req.parent_task_id }

def createTask (s : TMState) (req : TaskCreate) (newId : String) (now : Nat) :
    Except String TaskStatus × TMState :=
  if s.maxConcurrent ≤ activeCount s then
    (Except.error ("Max concurrent tasks (" ++ toString s.maxConcurrent ++
      ") reached. Cancel or wait for a task to finish."), s)
  else
    let t := newTask req newId now
    (Except.ok t, { s with tasks := insertOD s.tasks newId t })

/-- The HTTP route `POST /tasks` (`server.create_task`): 202 with the record,
or 429 when `create_task` raises. -/
def postTasks (s : TMState) (req : TaskCreate) (newId : String) (now : Nat) :
    (Nat × Option TaskStatus) × TMState :=
  match createTask s req newId now with
  | (Except.ok t, s2) => ((202, some t), s2)
  | (Except.error _, s2) => ((429, none), s2)

/-- `TaskManager.cancel_task`: looks up the live index only.  The SIGTERM
send mutates no record.  A still-`pending` record is failed and archived
synchronously; a `running` record is returned as is. -/
def cancelTask (s : TMState) (id : String) (now : Nat) : Option TaskStatus × TMState :=
  match lookupOD s.tasks id with
  | none => (none, s)
  | some task =>
    if task.status ≠ Status.pending ∧ task.status ≠ Status.running then (some task, s)
    else if task.status = Status.pending then
      let t2 := { task with status := Status.failed,
                            error := some "Cancelled before starting",
                            completed_at := some now }
      (some t2, archiveTask { s with tasks := insertOD s.tasks id t2 } id)
    else (some task, s)

/-! ## The per-task execution unit (`TaskManager._run_task`)

Its synchronous blocks between `await` points become atomic steps: spawn
failure, successful spawn, the atomic zero-exit finalization, and the two
blocks of the nonzero-exit path around the `proc.stderr.read()` await.
The record reference captured before the spawn await aliases the stored
entry, so these blocks mutate the record wherever it now lives. -/

/-- The HTTP route `DELETE /tasks/{id}` (`server.cancel_task`): 200 with the
record, or 404 when the manager returns nothing. -/
def deleteTasks (s : TMState) (id : String) (now : Nat) :
    (Nat × Option TaskStatus) × TMState :=
  match cancelTask s id now with
  | (none, s2) => ((404, none), s2)
  | (some t, s2) => ((200, some t), s2)

/-- Python truthiness of an optional string (`None` and `""` are falsy). -/
def truthyOpt (o : Option String) : Bool :=
  match o with
  | some s => ¬ s = ""
  | none => false

/-- Python `a or b` where `a` is an optional string. -/
def pyOrOpt (a : Option String) (b : String) : String :=
  match a with
  | some s => if s = "" then b else s
  | none => b

/-- Python `a or b` on strings. -/
def pyOrStr (a b : String) : String := if a = "" then b else a

/-- Lines 147-161 of `_run_task`: record exit code and completion time, then
set the terminal status and output/error from the parsed stream and stderr.
`rawStderr` is the decoded stderr text before `.strip()`. -/
def applyExit (t : TaskStatus) (exitCode : Int) (now : Nat)
    (out sid : Option String) (rawStderr : String) : TaskStatus :=
  let t := { t with exit_code := some exitCode, completed_at := some now }
  if exitCode = 0 then
    { t with status := Status.completed, output := out, session_id := sid }
  else
    { t with status := Status.failed,
             error := some (pyOrOpt out (pyOrStr (pyStrip rawStderr)
               ("Exited with code " ++ toString exitCode))) }

/-- The session summary returned by the external collaborator
`session_parser.get_session_summary` (only the fields the supervisor reads). -/
structure SessionSummary where
  session_id : Option String
  last_assistant_message : Option String
deriving DecidableEq

/-- `TaskManager._enrich_task_from_session`: backfill `session_id` and
`output` when not already set (truthiness checks as in Python). -/
def enrichTask (t : TaskStatus) (summary : Option SessionSummary) : TaskStatus :=
  match summary with
  | none => t
  | some sm =>
    let t := if ¬ truthyOpt t.session_id ∧ truthyOpt sm.session_id then
        { t with session_id := sm.session_id } else t
    let t := if ¬ truthyOpt t.output ∧ truthyOpt sm.last_assistant_message then
        { t with output := sm.last_assistant_message } else t
    t

/-- `_run_task` captures the record object once, at its top (line 113),
before the spawn await; every later block mutates that same object in
place.  With process-unique identifiers the captured object is the entry
keyed by the task id — normally in the live index, but sitting in the
archive when a cancel archived the record during an await.  An id in
neither store (an evicted record) leaves the stores unchanged: the
mutation then happens on an object no store references. -/
def mutateAliased (s : TMState) (id : String) (f : TaskStatus → TaskStatus) : TMState :=
  match lookupOD s.tasks id with
  | some t => { s with tasks := insertOD s.tasks id (f t) }
  | none =>
    match lookupOD s.completed id with
    | some t => { s with completed := insertOD s.completed id (f t) }
    | none => s

/-- The spawn-failure block of `_run_task` (lines 125-138): fail the
captured record, timestamp it, archive (`_archive_task` is a no-op when the
id is not live).  The not-found and generic `except` branches differ only
in `errMsg`. -/
def spawnFailStep (s : TMState) (id : String) (errMsg : String) (now : Nat) : TMState :=
  archiveTask
    (mutateAliased s id fun task =>
      { task with status := Status.failed, error := some errMsg,
                  completed_at := some now }) id

/-- The successful-spawn block of `_run_task` (lines 140-142): set
`running` and the pid on the captured record — even when a cancel archived
it as `failed` during the spawn await, in which case the archived record is
revived to `running` with its `completed_at` left set. -/
def spawnOkStep (s : TMState) (id : String) (pid : Nat) : TMState :=
  mutateAliased s id fun task =>
    { task with status := Status.running, pid := some pid }

/-- Enrichment from the session summary followed by bridge-payload
application in `plan_bridge` mode (lines 163-167). -/
def enrichAndBridge (task : TaskStatus) (summary : Option SessionSummary) : TaskStatus :=
  let t2 := enrichTask task summary
  if t2.workflow_mode = WorkflowMode.plan_bridge then
    match extractBridgePayload t2.output with
    | some payload => applyBridgePayload t2 payload
    | none => t2
  else t2

/-- The zero-exit finalization of `_run_task`: from `await proc.wait()`
through `_archive_task` (lines 147-154 and 163-177) this path has no
suspension, so it is one atomic block.  `events` is the decoded stdout
stream. -/
def finalizeOkStep (s : TMState) (id : String) (now : Nat) (events : List JObj)
    (summary : Option SessionSummary) : TMState :=
  archiveTask
    (mutateAliased s id fun task =>
      enrichAndBridge
        (applyExit task 0 now (readCodexOutput events).1 (readCodexOutput events).2 "")
        summary) id

/-- The first block of the nonzero-exit path (lines 147-156): exit code,
completion time and `failed` status are set, then the coroutine suspends on
`await proc.stderr.read()` (line 157) — a terminal record is transiently
observable in the live index during that suspension. -/
def failMarkStep (s : TMState) (id : String) (exitCode : Int) (now : Nat) : TMState :=
  mutateAliased s id fun task =>
    { task with exit_code := some exitCode, completed_at := some now,
                status := Status.failed }

/-- The second block of the nonzero-exit path (lines 158-177): error text
from parsed output, else stripped stderr, else the generic message; then
enrichment, bridge application and archival. -/
def failFinishStep (s : TMState) (id : String) (exitCode : Int) (events : List JObj)
    (rawStderr : String) (summary : Option SessionSummary) : TMState :=
  archiveTask
    (mutateAliased s id fun task =>
      enrichAndBridge
        { task with
            error := some (pyOrOpt (readCodexOutput events).1
              (pyOrStr (pyStrip rawStderr) ("Exited with code " ++ toString exitCode))) }
        summary) id

/-- One atomic transition of the supervisor: a synchronous Python block
between `await` points.  `create` requires the freshly generated identifier
to be unused, which `uuid4` guarantees for the process lifetime. -/
inductive Step : TMState → TMState → Prop where
  | create (s : TMState) (req : TaskCreate) (id : String) (now : Nat)
      (hfresh : lookupOD s.tasks id = none ∧ lookupOD s.completed id = none) :
      Step s (createTask s req id now).2
  | cancel (s : TMState) (id : String) (now : Nat) :
      Step s (cancelTask s id now).2
  | spawnFail (s : TMState) (id : String) (errMsg : String) (now : Nat) :
      Step s (spawnFailStep s id errMsg now)
  | spawnOk (s : TMState) (id : String) (pid : Nat) :
      Step s (spawnOkStep s id pid)
  | finalizeOk (s : TMState) (id : String) (now : Nat) (events : List JObj)
      (summary : Option SessionSummary) :
      Step s (finalizeOkStep s id now events summary)
  | failMark (s : TMState) (id : String) (exitCode : Int) (now : Nat) :
      Step s (failMarkStep s id exitCode now)
  | failFinish (s : TMState) (id : String) (exitCode : Int) (events : List JObj)
      (rawStderr : String) (summary : Option SessionSummary) :
      Step s (failFinishStep s id exitCode events rawStderr summary)

/-- States reachable from a freshly constructed `TaskManager`. -/
inductive Reachable : TMState → Prop where
  | init (maxConc maxComp : Nat) :
      Reachable { maxConcurrent := maxConc, maxCompleted := maxComp,
                  tasks := [], completed := [] }
  | step {s s2 : TMState} : Reachable s → Step s s2 → Reachable s2

def odKeys (l : List (String × TaskStatus)) : List String := l.map Prod.fst

/-! ## The supervisor invariant -/

/-- Mutual exclusion of the bridge fields, determined by `bridge_stage`. -/
def bridgeOk (t : TaskStatus) : Prop :=
  (t.bridge_stage = BridgeStage.none →
    t.bridge_questions = none ∧ t.bridge_plan = none) ∧
  (t.bridge_stage = BridgeStage.needs_input →
    t.bridge_questions.isSome ∧ t.bridge_plan = none) ∧
  (t.bridge_stage = BridgeStage.plan_ready →
    t.bridge_plan.isSome ∧ t.bridge_questions = none)

/-- The inductive invariant of the supervisor state.  Statuses and
completion times are deliberately unconstrained: a cancel landing during
the spawn await lets the resumed `_run_task` revive an archived record to
`running` with `completed_at` still set, so neither "live records are
non-terminal" nor "archived records are terminal" holds of the code. -/
def SupInv (s : TMState) : Prop :=
  (∀ p ∈ s.tasks ++ s.completed, bridgeOk p.2 ∧ p.2.task_id = p.1) ∧
  s.completed.length ≤ s.maxCompleted ∧
  (odKeys (s.tasks ++ s.completed)).Nodup

/-! ## Characterization of the stream parser -/

/-- Last element of a list, as an option. -/
def lastOpt {α : Type} : List α → Option α
  | [] => none
  | a :: rest =>
    match lastOpt rest with
    | some b => some b
    | none => some a

/-- The message an event contributes, when non-empty. -/
def nonEmptyMsg (o : JObj) : Option String :=
  if eventMsg o = "" then none else some (eventMsg o)

/-! ## Concrete example data used by witnesses and counterexamples -/

def exReq : TaskCreate := { prompt := "x" }

/-- A `thread.started` stream event. -/
def thrEv (tid : String) : JObj :=
  [("type", Json.jstr "thread.started"), ("thread_id", Json.jstr tid)]

/-- An `output_text` content fragment. -/
def outTextFrag (txt : String) : Json :=
  Json.jobj [("type", Json.jstr "output_text"), ("text", Json.jstr txt)]

/-- An `item.completed` structured-message stream event. -/
def msgEv (texts : List String) : JObj :=
  [("type", Json.jstr "item.completed"),
   ("item", Json.jobj [("type", Json.jstr "message"),
     ("content", Json.jarr (texts.map outTextFrag))])]

/-- A freshly constructed manager. -/
def emptyTM (maxConc maxComp : Nat) : TMState :=
  { maxConcurrent := maxConc, maxCompleted := maxComp, tasks := [], completed := [] }

/-- Four live tasks: the default ceiling is saturated. -/
def c1Busy : TMState :=
  { maxConcurrent := 4, maxCompleted := 50,
    tasks := [("a", newTask exReq "a" 0), ("b", newTask exReq "b" 1),
              ("c", newTask exReq "c" 2), ("d", newTask exReq "d" 3)],
    completed := [] }

def c2s1 : TMState := (createTask (emptyTM 4 50) exReq "t1" 0).2

/-- After cancelling the pending task: it is failed and archived. -/
def c2s2 : TMState := (cancelTask c2s1 "t1" 5).2

/-- A terminal record sitting in the live index (the code's terminal-cancel
branch reads such a state). -/
def c2wRec : TaskStatus :=
  { task_id := "w", status := Status.completed, created_at := 0, completed_at := some 1 }

def c2wState : TMState :=
  { maxConcurrent := 4, maxCompleted := 50, tasks := [("w", c2wRec)], completed := [] }

/-- The spec's unfenced plan_ready payload text. -/
def c6Text : String :=
  "\x7b\"bridge\":\"planmode.v1\",\"stage\":\"plan_ready\",\"plan_markdown\":\"Step 1...\"\x7d"

def c6Obj : JObj :=
  [("bridge", Json.jstr "planmode.v1"), ("stage", Json.jstr "plan_ready"),
   ("plan_markdown", Json.jstr "Step 1...")]

def c7NeedsPay : JObj :=
  [("bridge", Json.jstr "planmode.v1"), ("stage", Json.jstr "needs_input"),
   ("questions", Json.jarr [Json.jstr "Which env?"])]

def c7PlanPay : JObj := c6Obj

def c7OtherPay : JObj := [("stage", Json.jstr "done")]

def exRec0 : TaskStatus := newTask exReq "r0" 0

def c8s1 : TMState := (createTask (emptyTM 4 1) exReq "a" 0).2

def c8s2 : TMState := (createTask c8s1 exReq "b" 1).2

def c8s3 : TMState := (cancelTask c8s2 "a" 2).2

/-- Archiving "b" overflows the capacity-1 archive and evicts "a". -/
def c8s4 : TMState := (cancelTask c8s3 "b" 3).2

def c9s1 : TMState := (createTask (emptyTM 4 50) exReq "t1" 0).2

def c9b1 : TMState := (createTask (emptyTM 4 50) exReq "t1" 0).2

/-- Cancel lands while `_run_task` is suspended in the spawn await: the
pending record is failed (completion time 5) and archived. -/
def c9b2 : TMState := (cancelTask c9b1 "t1" 5).2

/-- The spawn completes and the resumed `_run_task` revives the archived
record to `running` via its captured reference. -/
def c9b3 : TMState := spawnOkStep c9b2 "t1" 99

theorem lastOpt_mem {α : Type} {l : List α} {a : α} (h : lastOpt l = some a) : a ∈ l := by
  induction l with
  | nil => simp [lastOpt] at h
  | cons x rest ih =>
    rw [lastOpt] at h
    cases hr : lastOpt rest with
    | some b => rw [hr] at h; exact List.mem_cons_of_mem x (ih (hr.trans h))
    | none => rw [hr] at h; simp at h; simp [h]

theorem processEvent_lastMessage (st : ParseState) (o : JObj) :
    (processEvent st o).lastMessage =
      match nonEmptyMsg o with
      | some m => some m
      | none => st.lastMessage := by
  unfold processEvent nonEmptyMsg
  cases h : eventTid o <;> by_cases hm : eventMsg o = "" <;> simp [h, hm]

theorem processEvent_sessionId (st : ParseState) (o : JObj) :
    (processEvent st o).sessionId =
      match eventTid o with
      | some tid => some tid
      | none => st.sessionId := by
  unfold processEvent
  cases h : eventTid o <;> by_cases hm : eventMsg o = "" <;> simp [h, hm]

theorem foldl_lastMessage (evs : List JObj) : ∀ st : ParseState,
    (evs.foldl processEvent st).lastMessage =
      match lastOpt (evs.filterMap nonEmptyMsg) with
      | some m => some m
      | none => st.lastMessage := by
  induction evs with
  | nil => intro st; simp [lastOpt]
  | cons o rest ih =>
    intro st
    rw [List.foldl_cons, ih, List.filterMap_cons]
    cases ho : nonEmptyMsg o with
    | none =>
      simp only []
      cases hr : lastOpt (rest.filterMap nonEmptyMsg) <;>
        simp [hr, processEvent_lastMessage, ho]
    | some m =>
      simp only [lastOpt]
      cases hr : lastOpt (rest.filterMap nonEmptyMsg) <;>
        simp [hr, processEvent_lastMessage, ho]

theorem foldl_sessionId (evs : List JObj) : ∀ st : ParseState,
    (evs.foldl processEvent st).sessionId =
      match lastOpt (evs.filterMap eventTid) with
      | some tid => some tid
      | none => st.sessionId := by
  induction evs with
  | nil => intro st; simp [lastOpt]
  | cons o rest ih =>
    intro st
    rw [List.foldl_cons, ih, List.filterMap_cons]
    cases ho : eventTid o with
    | none =>
      simp only []
      cases hr : lastOpt (rest.filterMap eventTid) <;>
        simp [hr, processEvent_sessionId, ho]
    | some tid =>
      simp only [lastOpt]
      cases hr : lastOpt (rest.filterMap eventTid) <;>
        simp [hr, processEvent_sessionId, ho]

/-- The parser's final message is the message of the latest event whose
extracted text is non-empty (or none). -/
theorem readOutput_fst (evs : List JObj) :
    (readCodexOutput evs).1 = lastOpt (evs.filterMap nonEmptyMsg) := by
  unfold readCodexOutput
  dsimp only
  rw [foldl_lastMessage]
  cases h : lastOpt (evs.filterMap nonEmptyMsg) <;> simp

/-- The parser's session id is the latest non-empty announced thread id. -/
theorem readOutput_snd (evs : List JObj) :
    (readCodexOutput evs).2 = lastOpt (evs.filterMap eventTid) := by
  unfold readCodexOutput
  dsimp only
  rw [foldl_sessionId]
  cases h : lastOpt (evs.filterMap eventTid) <;> simp

/-- The parser never returns an empty final message. -/
theorem readOutput_fst_ne_empty (evs : List JObj) :
    (readCodexOutput evs).1 ≠ some "" := by
  rw [readOutput_fst]
  intro h
  have hm := lastOpt_mem h
  rcases List.mem_filterMap.mp hm with ⟨o, _, ho⟩
  unfold nonEmptyMsg at ho
  by_cases he : eventMsg o = ""
  · simp [he] at ho
  · simp [he] at ho

/-! ## Characterization of the bridge candidate loop and of eviction -/

theorem findBridge_eq_find (l : List JObj) : findBridge l = l.find? isBridgeObj := by
  induction l with
  | nil => rfl
  | cons o rest ih =>
    rw [findBridge, List.find?]
    by_cases hb : jStrIs (jGet o "bridge") "planmode.v1" <;>
      by_cases hs : (jStrIs (jGet o "stage") "needs_input" ||
        jStrIs (jGet o "stage") "plan_ready") = true <;>
      simp [isBridgeObj, hb, hs, ih]

theorem evictGo_eq_drop (f : Nat) : ∀ (maxC : Nat) (l : List (String × TaskStatus)),
    l.length ≤ f → evictGo f maxC l = l.drop (l.length - maxC) := by
  induction f with
  | zero =>
    intro maxC l hl
    have : l = [] := List.eq_nil_of_length_eq_zero (Nat.le_zero.mp hl)
    subst this
    simp [evictGo]
  | succ f ih =>
    intro maxC l hl
    rw [evictGo]
    by_cases hlt : maxC < l.length
    · rw [if_pos hlt]
      cases l with
      | nil => simp at hlt
      | cons p rest =>
        simp only [List.length_cons] at hlt hl
        simp only [List.tail_cons]
        rw [ih maxC rest (by omega)]
        have h1 : (p :: rest).length - maxC = (rest.length - maxC) + 1 := by
          simp only [List.length_cons]; omega
        rw [h1, List.drop_succ_cons]
    · rw [if_neg hlt]
      have h0 : l.length - maxC = 0 := by omega
      simp [h0]

theorem evict_eq_drop (maxC : Nat) (l : List (String × TaskStatus)) :
    evict maxC l = l.drop (l.length - maxC) :=
  evictGo_eq_drop l.length maxC l (Nat.le_refl _)

theorem evict_length_le (maxC : Nat) (l : List (String × TaskStatus)) :
    (evict maxC l).length ≤ maxC := by
  by_cases h : maxC < l.length
  · rw [evict_eq_drop]; simp only [List.length_drop]; omega
  · rw [evict_eq_drop]
    have : l.length - maxC = 0 := by omega
    simp only [this, List.drop_zero]; omega

theorem evict_sublist (maxC : Nat) (l : List (String × TaskStatus)) :
    (evict maxC l).Sublist l := by
  rw [evict_eq_drop]; exact List.drop_sublist _ _

theorem mem_evict {maxC : Nat} {l : List (String × TaskStatus)}
    {p : String × TaskStatus} (h : p ∈ evict maxC l) : p ∈ l :=
  (evict_sublist maxC l).mem h

/-! ## Ordered-dict lemmas -/

theorem lookupOD_mem {l : List (String × TaskStatus)} {k : String} {v : TaskStatus}
    (h : lookupOD l k = some v) : (k, v) ∈ l := by
  induction l with
  | nil => simp [lookupOD] at h
  | cons p rest ih =>
    rw [lookupOD] at h
    by_cases hk : p.1 = k
    · rw [if_pos hk] at h
      have hv : p.2 = v := by injection h
      have hp : p = (k, v) := by cases p; simp_all
      rw [← hp]
      exact List.mem_cons_self _ _
    · rw [if_neg hk] at h
      exact List.mem_cons_of_mem p (ih h)

theorem lookupOD_isSome_iff {l : List (String × TaskStatus)} {k : String} :
    (lookupOD l k).isSome ↔ k ∈ odKeys l := by
  induction l with
  | nil => simp [lookupOD, odKeys]
  | cons p rest ih =>
    rw [lookupOD]
    by_cases hk : p.1 = k
    · simp [hk, odKeys]
    · simp only [if_neg hk, odKeys, List.map_cons, List.mem_cons]
      rw [ih]
      simp [odKeys]
      intro he
      exact absurd he.symm hk

theorem lookupOD_eq_none {l : List (String × TaskStatus)} {k : String}
    (h : k ∉ odKeys l) : lookupOD l k = none := by
  cases hl : lookupOD l k with
  | none => rfl
  | some v =>
    exact absurd (lookupOD_isSome_iff.mp (by simp [hl])) h

theorem mem_keys_of_lookup {l : List (String × TaskStatus)} {k : String} {v : TaskStatus}
    (h : lookupOD l k = some v) : k ∈ odKeys l :=
  lookupOD_isSome_iff.mp (by simp [h])

theorem mem_insertOD {l : List (String × TaskStatus)} {k : String} {v : TaskStatus}
    {p : String × TaskStatus} (h : p ∈ insertOD l k v) : p ∈ l ∨ p = (k, v) := by
  induction l with
  | nil => simp [insertOD] at h; simp [h]
  | cons q rest ih =>
    rw [insertOD] at h
    by_cases hk : q.1 = k
    · rw [if_pos hk] at h
      rcases List.mem_cons.mp h with h1 | h1
      · right; exact h1
      · left; exact List.mem_cons_of_mem q h1
    · rw [if_neg hk] at h
      rcases List.mem_cons.mp h with h1 | h1
      · left; simp [h1]
      · rcases ih h1 with h2 | h2
        · left; exact List.mem_cons_of_mem q h2
        · right; exact h2

theorem lookupOD_insert_self (l : List (String × TaskStatus)) (k : String) (v : TaskStatus) :
    lookupOD (insertOD l k v) k = some v := by
  induction l with
  | nil => simp [insertOD, lookupOD]
  | cons q rest ih =>
    rw [insertOD]
    by_cases hk : q.1 = k
    · rw [if_pos hk, lookupOD]; simp
    · rw [if_neg hk, lookupOD, if_neg hk]; exact ih

theorem keys_insertOD_mem {k : String} (v : TaskStatus) :
    ∀ l : List (String × TaskStatus), k ∈ odKeys l → odKeys (insertOD l k v) = odKeys l := by
  intro l
  induction l with
  | nil => intro h; simp [odKeys] at h
  | cons q rest ih =>
    intro h
    rw [insertOD]
    by_cases hk : q.1 = k
    · rw [if_pos hk]; simp [odKeys, hk]
    · rw [if_neg hk]
      have hmem : k ∈ odKeys rest := by
        simp only [odKeys, List.map_cons, List.mem_cons] at h
        rcases h with h1 | h1
        · exact absurd h1.symm hk
        · exact h1
      have hr := ih hmem
      simp only [odKeys, List.map_cons] at hr ⊢
      rw [hr]

theorem insertOD_not_mem {l : List (String × TaskStatus)} {k : String} (v : TaskStatus)
    (h : k ∉ odKeys l) : insertOD l k v = l ++ [(k, v)] := by
  induction l with
  | nil => simp [insertOD]
  | cons q rest ih =>
    rw [insertOD]
    have hk : ¬ q.1 = k := by
      intro he; exact h (by simp [odKeys, he])
    rw [if_neg hk]
    have hrest : k ∉ odKeys rest := by
      intro hm; exact h (by simp [odKeys] at hm ⊢; right; exact hm)
    rw [ih hrest]
    simp

theorem mem_removeOD {l : List (String × TaskStatus)} {k : String}
    {p : String × TaskStatus} (h : p ∈ removeOD l k) : p ∈ l ∧ ¬ p.1 = k := by
  induction l with
  | nil => simp [removeOD] at h
  | cons q rest ih =>
    rw [removeOD] at h
    by_cases hk : q.1 = k
    · rw [if_pos hk] at h
      rcases ih h with ⟨h1, h2⟩
      exact ⟨List.mem_cons_of_mem q h1, h2⟩
    · rw [if_neg hk] at h
      rcases List.mem_cons.mp h with h1 | h1
      · subst h1; exact ⟨List.mem_cons_self _ _, hk⟩
      · rcases ih h1 with ⟨h2, h3⟩
        exact ⟨List.mem_cons_of_mem q h2, h3⟩

theorem keys_removeOD (l : List (String × TaskStatus)) (k : String) :
    odKeys (removeOD l k) = (odKeys l).filter (fun x => ¬ x = k) := by
  induction l with
  | nil => simp [removeOD, odKeys]
  | cons q rest ih =>
    rw [removeOD]
    by_cases hk : q.1 = k
    · rw [if_pos hk]
      simp only [odKeys, List.map_cons, List.filter_cons] at ih ⊢
      rw [ih]
      simp [hk]
    · rw [if_neg hk]
      simp only [odKeys, List.map_cons, List.filter_cons] at ih ⊢
      rw [ih]
      simp [hk]

/-! ### Field-effect lemmas for the per-record transformers -/

theorem applyBridgePayload_bridgeOk (t : TaskStatus) (payload : JObj) :
    bridgeOk (applyBridgePayload t payload) := by
  unfold applyBridgePayload bridgeOk
  by_cases h1 : jStrIs (jGet payload "stage") "needs_input" = true <;>
    by_cases h2 : jStrIs (jGet payload "stage") "plan_ready" = true <;>
    simp [h1, h2]

theorem applyBridgePayload_core (t : TaskStatus) (payload : JObj) :
    (applyBridgePayload t payload).status = t.status ∧
    (applyBridgePayload t payload).completed_at = t.completed_at ∧
    (applyBridgePayload t payload).task_id = t.task_id := by
  unfold applyBridgePayload
  by_cases h1 : jStrIs (jGet payload "stage") "needs_input" = true <;>
    by_cases h2 : jStrIs (jGet payload "stage") "plan_ready" = true <;>
    simp [h1, h2]

theorem enrichTask_core (t : TaskStatus) (sm : Option SessionSummary) :
    (enrichTask t sm).status = t.status ∧
    (enrichTask t sm).completed_at = t.completed_at ∧
    (enrichTask t sm).task_id = t.task_id ∧
    (enrichTask t sm).bridge_stage = t.bridge_stage ∧
    (enrichTask t sm).bridge_questions = t.bridge_questions ∧
    (enrichTask t sm).bridge_plan = t.bridge_plan ∧
    (enrichTask t sm).workflow_mode = t.workflow_mode := by
  unfold enrichTask
  cases sm with
  | none => simp
  | some sm =>
    dsimp only
    split <;> split <;> simp

theorem applyExit_core (t : TaskStatus) (exitCode : Int) (now : Nat)
    (out sid : Option String) (rawStderr : String) :
    ((applyExit t exitCode now out sid rawStderr).status = Status.completed ∨
      (applyExit t exitCode now out sid rawStderr).status = Status.failed) ∧
    (applyExit t exitCode now out sid rawStderr).completed_at = some now ∧
    (applyExit t exitCode now out sid rawStderr).task_id = t.task_id ∧
    (applyExit t exitCode now out sid rawStderr).bridge_stage = t.bridge_stage ∧
    (applyExit t exitCode now out sid rawStderr).bridge_questions = t.bridge_questions ∧
    (applyExit t exitCode now out sid rawStderr).bridge_plan = t.bridge_plan ∧
    (applyExit t exitCode now out sid rawStderr).workflow_mode = t.workflow_mode := by
  unfold applyExit
  by_cases h : exitCode = 0 <;> simp [h]

theorem bridgeOk_of_fields {t u : TaskStatus}
    (hs : u.bridge_stage = t.bridge_stage)
    (hq : u.bridge_questions = t.bridge_questions)
    (hp : u.bridge_plan = t.bridge_plan)
    (h : bridgeOk t) : bridgeOk u := by
  unfold bridgeOk at h ⊢
  rw [hs, hq, hp]
  exact h

/-! ### Invariant preservation -/

theorem length_insertOD_mem {k : String} (v : TaskStatus) :
    ∀ l : List (String × TaskStatus), k ∈ odKeys l →
      (insertOD l k v).length = l.length := by
  intro l
  induction l with
  | nil => intro h; simp [odKeys] at h
  | cons q rest ih =>
    intro h
    rw [insertOD]
    by_cases hk : q.1 = k
    · rw [if_pos hk]; simp
    · rw [if_neg hk]
      have hmem : k ∈ odKeys rest := by
        simp only [odKeys, List.map_cons, List.mem_cons] at h
        rcases h with h1 | h1
        · exact absurd h1.symm hk
        · exact h1
      simp only [List.length_cons]
      rw [ih hmem]

theorem nodup_keys_split {s : TMState} (h : SupInv s) :
    (odKeys s.tasks).Nodup ∧ (odKeys s.completed).Nodup ∧
      (odKeys s.tasks).Disjoint (odKeys s.completed) := by
  have hk := h.2.2
  rw [show odKeys (s.tasks ++ s.completed) = odKeys s.tasks ++ odKeys s.completed by
    simp [odKeys]] at hk
  exact List.nodup_append.mp hk

/-- Overwriting a live entry in place with a record that keeps its key
preserves the invariant. -/
theorem inv_set_live {s : TMState} {id : String} {task t2 : TaskStatus}
    (h : SupInv s) (hl : lookupOD s.tasks id = some task)
    (hb : bridgeOk t2) (hid : t2.task_id = id) :
    SupInv { s with tasks := insertOD s.tasks id t2 } := by
  have hidt : id ∈ odKeys s.tasks := mem_keys_of_lookup hl
  refine ⟨?_, h.2.1, ?_⟩
  · intro p hp
    rcases List.mem_append.mp hp with h1 | h1
    · rcases mem_insertOD h1 with h2 | h2
      · exact h.1 p (List.mem_append.mpr (Or.inl h2))
      · rw [h2]
        exact ⟨hb, hid⟩
    · exact h.1 p (List.mem_append.mpr (Or.inr h1))
  · rw [show odKeys (insertOD s.tasks id t2 ++ s.completed) =
        odKeys (insertOD s.tasks id t2) ++ odKeys s.completed by simp [odKeys]]
    rw [keys_insertOD_mem _ _ hidt]
    have hk := h.2.2
    rw [show odKeys (s.tasks ++ s.completed) =
        odKeys s.tasks ++ odKeys s.completed by simp [odKeys]] at hk
    exact hk

/-- Overwriting an archived entry in place with a record that keeps its key
preserves the invariant (the archive length is unchanged). -/
theorem inv_set_completed {s : TMState} {id : String} {task t2 : TaskStatus}
    (h : SupInv s) (hc : lookupOD s.completed id = some task)
    (hb : bridgeOk t2) (hid : t2.task_id = id) :
    SupInv { s with completed := insertOD s.completed id t2 } := by
  have hidc : id ∈ odKeys s.completed := mem_keys_of_lookup hc
  refine ⟨?_, ?_, ?_⟩
  · intro p hp
    rcases List.mem_append.mp hp with h1 | h1
    · exact h.1 p (List.mem_append.mpr (Or.inl h1))
    · rcases mem_insertOD h1 with h2 | h2
      · exact h.1 p (List.mem_append.mpr (Or.inr h2))
      · rw [h2]
        exact ⟨hb, hid⟩
  · rw [show ({ s with completed := insertOD s.completed id t2 } : TMState).completed =
        insertOD s.completed id t2 from rfl]
    rw [length_insertOD_mem _ _ hidc]
    exact h.2.1
  · rw [show odKeys (s.tasks ++ insertOD s.completed id t2) =
        odKeys s.tasks ++ odKeys (insertOD s.completed id t2) by simp [odKeys]]
    rw [keys_insertOD_mem _ _ hidc]
    have hk := h.2.2
    rw [show odKeys (s.tasks ++ s.completed) =
        odKeys s.tasks ++ odKeys s.completed by simp [odKeys]] at hk
    exact hk

/-- Mutating the record aliased by `_run_task`'s captured reference
preserves the invariant whenever the mutation preserves the bridge
exclusion and the record's identifier. -/
theorem inv_mutateAliased {s : TMState} {id : String} {f : TaskStatus → TaskStatus}
    (h : SupInv s)
    (hb : ∀ t, bridgeOk t → bridgeOk (f t))
    (hi : ∀ t, (f t).task_id = t.task_id) :
    SupInv (mutateAliased s id f) := by
  unfold mutateAliased
  cases hl : lookupOD s.tasks id with
  | some t =>
    have hrec := h.1 (id, t) (List.mem_append.mpr (Or.inl (lookupOD_mem hl)))
    exact inv_set_live h hl (hb t hrec.1) (by rw [hi t]; exact hrec.2)
  | none =>
    cases hc : lookupOD s.completed id with
    | some t =>
      have hrec := h.1 (id, t) (List.mem_append.mpr (Or.inr (lookupOD_mem hc)))
      exact inv_set_completed h hc (hb t hrec.1) (by rw [hi t]; exact hrec.2)
    | none => exact h

/-- `_archive_task` preserves the invariant: it moves the live entry into
the archive and evicts the oldest archived entries down to the bound. -/
theorem inv_archiveTask {s : TMState} (id : String) (h : SupInv s) :
    SupInv (archiveTask s id) := by
  unfold archiveTask
  cases hl : lookupOD s.tasks id with
  | none => exact h
  | some t =>
    dsimp only
    have hidt : id ∈ odKeys s.tasks := mem_keys_of_lookup hl
    have hrec := h.1 (id, t) (List.mem_append.mpr (Or.inl (lookupOD_mem hl)))
    rcases nodup_keys_split h with ⟨hnt, hnc, hdisj⟩
    have hidc : id ∉ odKeys s.completed := fun hm => hdisj hidt hm
    have hins : insertOD s.completed id t = s.completed ++ [(id, t)] :=
      insertOD_not_mem t hidc
    refine ⟨?_, evict_length_le _ _, ?_⟩
    · intro p hp
      rcases List.mem_append.mp hp with h1 | h1
      · rcases mem_removeOD h1 with ⟨hp1, _⟩
        exact h.1 p (List.mem_append.mpr (Or.inl hp1))
      · have hp1 := mem_evict h1
        rw [hins] at hp1
        rcases List.mem_append.mp hp1 with hp2 | hp2
        · exact h.1 p (List.mem_append.mpr (Or.inr hp2))
        · have hpe : p = (id, t) := by simpa using hp2
          rw [hpe]
          exact hrec
    · rw [show odKeys (removeOD s.tasks id ++
          evict s.maxCompleted (insertOD s.completed id t)) =
          odKeys (removeOD s.tasks id) ++
          odKeys (evict s.maxCompleted (insertOD s.completed id t)) by simp [odKeys]]
      rw [keys_removeOD, hins, evict_eq_drop]
      rw [show odKeys (List.drop ((s.completed ++ [(id, t)]).length - s.maxCompleted)
          (s.completed ++ [(id, t)])) =
          (odKeys (s.completed ++ [(id, t)])).drop
            ((s.completed ++ [(id, t)]).length - s.maxCompleted) by
        simp [odKeys, List.map_drop]]
      have hnodup_ext : (odKeys (s.completed ++ [(id, t)])).Nodup := by
        rw [show odKeys (s.completed ++ [(id, t)]) = odKeys s.completed ++ [id] by
          simp [odKeys]]
        rw [List.nodup_append]
        refine ⟨hnc, List.nodup_singleton id, ?_⟩
        intro a ha hb2
        have : a = id := by simpa using hb2
        exact hidc (this ▸ ha)
      rw [List.nodup_append]
      refine ⟨hnt.filter _, (List.drop_sublist _ _).nodup hnodup_ext, ?_⟩
      intro a ha hb2
      have ha2 : a ∈ odKeys s.tasks ∧ ¬ a = id := by
        have := List.mem_filter.mp ha
        simpa using this
      have hb3 : a ∈ odKeys (s.completed ++ [(id, t)]) :=
        (List.drop_subset _ _) hb2
      rw [show odKeys (s.completed ++ [(id, t)]) = odKeys s.completed ++ [id] by
        simp [odKeys]] at hb3
      rcases List.mem_append.mp hb3 with hb4 | hb4
      · exact hdisj ha2.1 hb4
      · exact ha2.2 (by simpa using hb4)

theorem enrichTask_bridgeOk (t : TaskStatus) (sm : Option SessionSummary)
    (h : bridgeOk t) : bridgeOk (enrichTask t sm) :=
  bridgeOk_of_fields (enrichTask_core t sm).2.2.2.1
    (enrichTask_core t sm).2.2.2.2.1 (enrichTask_core t sm).2.2.2.2.2.1 h

theorem enrichAndBridge_bridgeOk (t : TaskStatus) (sm : Option SessionSummary)
    (h : bridgeOk t) : bridgeOk (enrichAndBridge t sm) := by
  unfold enrichAndBridge
  dsimp only
  split
  · cases hp : extractBridgePayload (enrichTask t sm).output with
    | some payload => exact applyBridgePayload_bridgeOk _ _
    | none => exact enrichTask_bridgeOk t sm h
  · exact enrichTask_bridgeOk t sm h

theorem enrichAndBridge_task_id (t : TaskStatus) (sm : Option SessionSummary) :
    (enrichAndBridge t sm).task_id = t.task_id := by
  unfold enrichAndBridge
  dsimp only
  split
  · cases hp : extractBridgePayload (enrichTask t sm).output with
    | some payload =>
      rw [(applyBridgePayload_core _ _).2.2, (enrichTask_core _ _).2.2.1]
    | none => exact (enrichTask_core _ _).2.2.1
  · exact (enrichTask_core _ _).2.2.1

theorem inv_create {s : TMState} (req : TaskCreate) (id : String) (now : Nat)
    (h : SupInv s)
    (hfresh : lookupOD s.tasks id = none ∧ lookupOD s.completed id = none) :
    SupInv (createTask s req id now).2 := by
  unfold createTask
  by_cases hc : s.maxConcurrent ≤ activeCount s
  · rw [if_pos hc]; exact h
  · rw [if_neg hc]
    dsimp only
    rcases nodup_keys_split h with ⟨hnt, hnc, hdisj⟩
    have hidt : id ∉ odKeys s.tasks := by
      intro hm
      rcases Option.isSome_iff_exists.mp (lookupOD_isSome_iff.mpr hm) with ⟨v, hv⟩
      rw [hfresh.1] at hv
      exact Option.noConfusion hv
    have hidc : id ∉ odKeys s.completed := by
      intro hm
      rcases Option.isSome_iff_exists.mp (lookupOD_isSome_iff.mpr hm) with ⟨v, hv⟩
      rw [hfresh.2] at hv
      exact Option.noConfusion hv
    rw [insertOD_not_mem _ hidt]
    refine ⟨?_, h.2.1, ?_⟩
    · intro p hp
      rcases List.mem_append.mp hp with hp1 | hp1
      · rcases List.mem_append.mp hp1 with hp2 | hp2
        · exact h.1 p (List.mem_append.mpr (Or.inl hp2))
        · have hpe : p = (id, newTask req id now) := by
            simpa using hp2
          rw [hpe]
          exact ⟨by simp [bridgeOk, newTask], rfl⟩
      · exact h.1 p (List.mem_append.mpr (Or.inr hp1))
    · rw [show odKeys ((s.tasks ++ [(id, newTask req id now)]) ++ s.completed) =
          (odKeys s.tasks ++ [id]) ++ odKeys s.completed by simp [odKeys]]
      rw [List.nodup_append]
      refine ⟨?_, hnc, ?_⟩
      · rw [List.nodup_append]
        refine ⟨hnt, List.nodup_singleton id, ?_⟩
        intro a ha hb
        have : a = id := by simpa using hb
        exact hidt (this ▸ ha)
      · intro a ha hb
        rcases List.mem_append.mp ha with ha1 | ha1
        · exact hdisj ha1 hb
        · have : a = id := by simpa using ha1
          exact hidc (this ▸ hb)

theorem inv_cancel {s : TMState} (id : String) (now : Nat) (h : SupInv s) :
    SupInv (cancelTask s id now).2 := by
  unfold cancelTask
  cases hl : lookupOD s.tasks id with
  | none => exact h
  | some task =>
    dsimp only
    by_cases h1 : task.status ≠ Status.pending ∧ task.status ≠ Status.running
    · rw [if_pos h1]; exact h
    · rw [if_neg h1]
      by_cases h2 : task.status = Status.pending
      · rw [if_pos h2]
        dsimp only
        have hrec := h.1 (id, task) (List.mem_append.mpr (Or.inl (lookupOD_mem hl)))
        exact inv_archiveTask id (inv_set_live h hl
          (bridgeOk_of_fields rfl rfl rfl hrec.1) hrec.2)
      · rw [if_neg h2]; exact h

theorem inv_spawnFail {s : TMState} (id : String) (errMsg : String) (now : Nat)
    (h : SupInv s) : SupInv (spawnFailStep s id errMsg now) :=
  inv_archiveTask id (inv_mutateAliased h
    (fun _ ht => bridgeOk_of_fields rfl rfl rfl ht) (fun _ => rfl))

theorem inv_spawnOk {s : TMState} (id : String) (pid : Nat) (h : SupInv s) :
    SupInv (spawnOkStep s id pid) :=
  inv_mutateAliased h
    (fun _ ht => bridgeOk_of_fields rfl rfl rfl ht) (fun _ => rfl)

theorem inv_finalizeOk {s : TMState} (id : String) (now : Nat) (events : List JObj)
    (summary : Option SessionSummary) (h : SupInv s) :
    SupInv (finalizeOkStep s id now events summary) := by
  refine inv_archiveTask id (inv_mutateAliased h ?_ ?_)
  · intro t ht
    refine enrichAndBridge_bridgeOk _ _ ?_
    exact bridgeOk_of_fields (applyExit_core t 0 now _ _ "").2.2.2.1
      (applyExit_core t 0 now _ _ "").2.2.2.2.1
      (applyExit_core t 0 now _ _ "").2.2.2.2.2.1 ht
  · intro t
    rw [enrichAndBridge_task_id]
    exact (applyExit_core t 0 now _ _ "").2.2.1

theorem inv_failMark {s : TMState} (id : String) (exitCode : Int) (now : Nat)
    (h : SupInv s) : SupInv (failMarkStep s id exitCode now) :=
  inv_mutateAliased h
    (fun _ ht => bridgeOk_of_fields rfl rfl rfl ht) (fun _ => rfl)

theorem inv_failFinish {s : TMState} (id : String) (exitCode : Int)
    (events : List JObj) (rawStderr : String) (summary : Option SessionSummary)
    (h : SupInv s) : SupInv (failFinishStep s id exitCode events rawStderr summary) := by
  refine inv_archiveTask id (inv_mutateAliased h ?_ ?_)
  · intro t ht
    exact enrichAndBridge_bridgeOk _ _ (bridgeOk_of_fields rfl rfl rfl ht)
  · intro t
    rw [enrichAndBridge_task_id]

theorem inv_step {s s2 : TMState} (h : SupInv s) (hs : Step s s2) : SupInv s2 := by
  cases hs with
  | create req id now hfresh => exact inv_create req id now h hfresh
  | cancel id now => exact inv_cancel id now h
  | spawnFail id errMsg now => exact inv_spawnFail id errMsg now h
  | spawnOk id pid => exact inv_spawnOk id pid h
  | finalizeOk id now events summary => exact inv_finalizeOk id now events summary h
  | failMark id exitCode now => exact inv_failMark id exitCode now h
  | failFinish id exitCode events rawStderr summary =>
      exact inv_failFinish id exitCode events rawStderr summary h

/-- Every reachable supervisor state satisfies the invariant. -/
theorem reachable_inv {s : TMState} (h : Reachable s) : SupInv s := by
  induction h with
  | init mc mk => refine ⟨?_, ?_, ?_⟩ <;> simp [odKeys]
  | step hr hst ih => exact inv_step ih hst

/-! ## Claim theorems -/

/-- C1: for every submission request, when the count of records in
`pending`/`running` status has reached the configured concurrency ceiling
`max_concurrent`, `create_task` fails with the capacity error (surfaced as
HTTP 429 by `POST /tasks`) and both stores are left unchanged: no record is
added to the live index or the archive. -/
theorem C1_capacity_exceeded (s : TMState) (req : TaskCreate) (newId : String)
    (now : Nat) (h : s.maxConcurrent ≤ activeCount s) :
    createTask s req newId now =
      (Except.error ("Max concurrent tasks (" ++ toString s.maxConcurrent ++
        ") reached. Cancel or wait for a task to finish."), s) ∧
    postTasks s req newId now = ((429, none), s) := by
  have h1 : createTask s req newId now =
      (Except.error ("Max concurrent tasks (" ++ toString s.maxConcurrent ++
        ") reached. Cancel or wait for a task to finish."), s) := by
    unfold createTask
    rw [if_pos h]
  refine ⟨h1, ?_⟩
  unfold postTasks
  rw [h1]

/-- C1 witness: a manager whose four live tasks saturate the default ceiling
rejects a fifth submission with 429, keeping the stores unchanged. -/
theorem C1_capacity_exceeded_witness :
    c1Busy.maxConcurrent ≤ activeCount c1Busy ∧
    postTasks c1Busy exReq "e" 9 = ((429, none), c1Busy) :=
  ⟨by decide, (C1_capacity_exceeded c1Busy exReq "e" 9 (by decide)).2⟩

/-- C2 counterexample: submit task "t1", then cancel it while pending: the
record becomes terminal (`failed`) and is archived synchronously, and Get
still returns it; yet a second Cancel on this terminal record returns
nothing — surfaced as HTTP 404 — instead of the record, because
`cancel_task` consults only the live index.  The state is reachable. -/
theorem C2_terminal_cancel_counterexample :
    (getTask c2s2 "t1").map (fun t => t.status) = some Status.failed ∧
    (cancelTask c2s2 "t1" 9).1 = none ∧
    (deleteTasks c2s2 "t1" 9).1.1 = 404 ∧
    Reachable c2s2 := by
  refine ⟨by decide, by decide, by decide, ?_⟩
  exact Reachable.step
    (Reachable.step (Reachable.init 4 50)
      (Step.create (emptyTM 4 50) exReq "t1" 0 ⟨rfl, rfl⟩))
    (Step.cancel c2s1 "t1" 5)

/-- C2 amended: Cancel is an idempotent no-op exactly for a terminal record
still present in the live index (it is returned unchanged, twice, with no
state change).  A record in that situation exists only transiently: it is
archived in the same atomic block for cancel-before-start and spawn
failure, and after the stderr-read suspension on the nonzero-exit path.
Once archived, Cancel no longer finds the record and returns nothing
(HTTP 404), even though Get still returns it. -/
theorem C2_cancel_terminal_amended (s : TMState) (id : String) (now now2 : Nat)
    (t : TaskStatus) (hlive : lookupOD s.tasks id = some t)
    (hterm : t.status = Status.completed ∨ t.status = Status.failed) :
    cancelTask s id now = (some t, s) ∧
    cancelTask (cancelTask s id now).2 id now2 = (some t, s) ∧
    (∀ s2 : TMState, lookupOD s2.tasks id = none →
      cancelTask s2 id now2 = (none, s2)) := by
  have hcond : t.status ≠ Status.pending ∧ t.status ≠ Status.running := by
    rcases hterm with h1 | h1 <;> rw [h1] <;> exact ⟨by simp, by simp⟩
  have h1 : cancelTask s id now = (some t, s) := by
    unfold cancelTask
    rw [hlive]
    dsimp only
    rw [if_pos hcond]
  have h2 : cancelTask s id now2 = (some t, s) := by
    unfold cancelTask
    rw [hlive]
    dsimp only
    rw [if_pos hcond]
  refine ⟨h1, ?_, ?_⟩
  · rw [h1]
    exact h2
  · intro s2 hnone
    unfold cancelTask
    rw [hnone]

/-- C2 witness: a terminal record in the live index is returned unchanged by
Cancel, and by a second Cancel, with no state change. -/
theorem C2_cancel_terminal_amended_witness :
    cancelTask c2wState "w" 3 = (some c2wRec, c2wState) ∧
    cancelTask (cancelTask c2wState "w" 3).2 "w" 4 = (some c2wRec, c2wState) :=
  ⟨(C2_cancel_terminal_amended c2wState "w" 3 4 c2wRec rfl (Or.inl rfl)).1,
   (C2_cancel_terminal_amended c2wState "w" 3 4 c2wRec rfl (Or.inl rfl)).2.1⟩

/-- C3 counterexample: the stream announces non-empty thread id "s1" and
then "s2"; the first non-empty announced identifier is "s1", but the parser
returns "s2": a later announcement overwrites the retained value. -/
theorem C3_first_session_counterexample :
    eventTid (thrEv "s1") = some "s1" ∧
    (readCodexOutput [thrEv "s1", thrEv "s2"]).2 = some "s2" :=
  ⟨rfl, rfl⟩

/-- C3 amended: the parser's returned session identifier is the LAST
non-empty announced session/thread identifier — each later non-empty
`thread.started` id overwrites the retained value (empty or non-string ids
are ignored). -/
theorem C3_session_last_wins :
    (∀ evs : List JObj, (readCodexOutput evs).2 = lastOpt (evs.filterMap eventTid)) ∧
    (readCodexOutput [thrEv "s1", thrEv "s2"]).2 = some "s2" :=
  ⟨readOutput_snd, rfl⟩

/-- C4 counterexample: the latest recognized assistant-message event here is
a structured message with no `output_text` fragments, so the text it
carries (the newline-join of its fragments) is the empty string; the parser
nevertheless reports "A" from the earlier event, whose fragment " A " was
moreover stripped of surrounding whitespace rather than kept verbatim. -/
theorem C4_latest_event_counterexample :
    typeIs (msgEv []) "item.completed" = true ∧
    eventMsg (msgEv []) = "" ∧
    eventMsg (msgEv [" A "]) = "A" ∧
    (readCodexOutput [msgEv [" A "], msgEv []]).1 = some "A" :=
  ⟨rfl, rfl, rfl, rfl⟩

/-- C4 amended: the parser's final message is the extracted text of the
latest recognized assistant-message event whose extracted text is
non-empty, where a structured message's extracted text is the newline-join
of its `output_text` fragments stripped of surrounding whitespace; in
particular "A" followed by "B" yields "B", and a join with empty fragments
keeps interior newlines but loses edge whitespace. -/
theorem C4_last_nonempty_message_wins :
    (∀ evs : List JObj, (readCodexOutput evs).1 = lastOpt (evs.filterMap nonEmptyMsg)) ∧
    (readCodexOutput [msgEv ["A"], msgEv ["B"]]).1 = some "B" ∧
    (readCodexOutput [msgEv ["x"], msgEv ["a", "", "b "]]).1 = some "a\n\nb" :=
  ⟨readOutput_fst, rfl, rfl⟩

/-- C10: a recognized assistant-message event whose extracted text is empty
contributes nothing, so it never overwrites a previously retained non-empty
message: the final message is that of the latest event with non-empty
extracted text, or none when no event ever yielded non-empty text (a
whitespace-only fragment strips to empty and is likewise ignored). -/
theorem C10_empty_message_no_overwrite :
    (∀ evs : List JObj, (readCodexOutput evs).1 = lastOpt (evs.filterMap nonEmptyMsg)) ∧
    (∀ o : JObj, nonEmptyMsg o = if eventMsg o = "" then none else some (eventMsg o)) ∧
    (readCodexOutput [msgEv ["hello"], msgEv []]).1 = some "hello" ∧
    (readCodexOutput [msgEv [], msgEv ["  "]]).1 = none :=
  ⟨readOutput_fst, fun _ => rfl, rfl, rfl⟩

/-- C5: the finalization block after process exit: exit code 0 yields a
`completed` record whose output (and session id) are the parsed stream
results; a nonzero exit yields `failed` whose error text is the parsed
message when present, else the captured (stripped) stderr text when
non-empty, else the generic "Exited with code N" text. -/
theorem C5_exit_finalization (evs : List JObj) (t : TaskStatus) (exitCode : Int)
    (now : Nat) (rawStderr : String) :
    (exitCode = 0 →
      (applyExit t exitCode now (readCodexOutput evs).1 (readCodexOutput evs).2
        rawStderr).status = Status.completed ∧
      (applyExit t exitCode now (readCodexOutput evs).1 (readCodexOutput evs).2
        rawStderr).output = (readCodexOutput evs).1 ∧
      (applyExit t exitCode now (readCodexOutput evs).1 (readCodexOutput evs).2
        rawStderr).session_id = (readCodexOutput evs).2) ∧
    (¬ exitCode = 0 →
      (applyExit t exitCode now (readCodexOutput evs).1 (readCodexOutput evs).2
        rawStderr).status = Status.failed ∧
      (applyExit t exitCode now (readCodexOutput evs).1 (readCodexOutput evs).2
        rawStderr).error = some (match (readCodexOutput evs).1 with
          | some m => m
          | none =>
            if pyStrip rawStderr = "" then "Exited with code " ++ toString exitCode
            else pyStrip rawStderr)) := by
  constructor
  · intro h0
    unfold applyExit
    rw [if_pos h0]
    exact ⟨rfl, rfl, rfl⟩
  · intro hne
    unfold applyExit
    rw [if_neg hne]
    refine ⟨rfl, ?_⟩
    cases hout : (readCodexOutput evs).1 with
    | some m =>
      have hm : ¬ m = "" := by
        intro he
        exact readOutput_fst_ne_empty evs (by rw [hout, he])
      simp [pyOrOpt, hm]
    | none =>
      simp [pyOrOpt, pyOrStr]

/-- C5 witness: with stream message "A", a nonzero exit gives a failed
record whose error is the parsed message; a zero exit gives a completed
record. -/
theorem C5_exit_finalization_witness :
    (applyExit exRec0 3 7 (readCodexOutput [msgEv ["A"]]).1
      (readCodexOutput [msgEv ["A"]]).2 "boom").status = Status.failed ∧
    (applyExit exRec0 0 7 (readCodexOutput [msgEv ["A"]]).1
      (readCodexOutput [msgEv ["A"]]).2 "").status = Status.completed :=
  ⟨((C5_exit_finalization [msgEv ["A"]] exRec0 3 7 "boom").2 (by decide)).1,
   ((C5_exit_finalization [msgEv ["A"]] exRec0 0 7 "").1 rfl).1⟩

/-- C6: the extractor collects JSON-object candidates in the order
whole-trimmed-text, fenced code blocks, then balanced objects scanned from
every brace occurrence, returning the first candidate whose `bridge` field
is "planmode.v1" and whose `stage` is `needs_input` or `plan_ready` (and
nothing otherwise); the spec's unfenced plan_ready text extracts to its
object. -/
theorem C6_bridge_extraction :
    (∀ t : String, extractBridgePayload (some t) = (bridgeCandidates t).find? isBridgeObj) ∧
    extractBridgePayload none = none ∧
    (∀ t : String, bridgeCandidates t =
      directCands t ++ fencedCands t ++ scanCands (t.data.length + 1) t.data) ∧
    extractBridgePayload (some c6Text) = some c6Obj := by
  refine ⟨?_, rfl, fun _ => rfl, rfl⟩
  intro t
  by_cases ht : t = ""
  · subst ht
    rfl
  · have h1 : extractBridgePayload (some t) = findBridge (bridgeCandidates t) := by
      show (if t = "" then none else findBridge (bridgeCandidates t)) =
        findBridge (bridgeCandidates t)
      rw [if_neg ht]
    rw [h1, findBridge_eq_find]

/-- C7: applying a `needs_input` payload stores the ordered list of trimmed
non-empty question strings (empty list when the field is absent or not a
list) and clears the plan; a `plan_ready` payload stores the plan text from
`plan_markdown` with fallback to `plan` (formatted JSON for a structured
object, stringified and trimmed otherwise, empty when both are absent) and
clears the questions; any other stage resets all three fields.
Consequently, in every reachable state, every record satisfies the mutual
exclusion of `bridge_questions` and `bridge_plan`, determined by
`bridge_stage`. -/
theorem C7_bridge_payload_exclusive :
    (∀ (t : TaskStatus) (payload : JObj),
      jStrIs (jGet payload "stage") "needs_input" = true →
      (applyBridgePayload t payload).bridge_stage = BridgeStage.needs_input ∧
      (applyBridgePayload t payload).bridge_plan = none ∧
      (applyBridgePayload t payload).bridge_questions =
        some (match jGet payload "questions" with
          | some (Json.jarr xs) => xs.filterMap fun q =>
              if pyStrip (pyStr q) = "" then none else some (pyStrip (pyStr q))
          | _ => [])) ∧
    (∀ (t : TaskStatus) (payload : JObj),
      jStrIs (jGet payload "stage") "plan_ready" = true →
      (applyBridgePayload t payload).bridge_stage = BridgeStage.plan_ready ∧
      (applyBridgePayload t payload).bridge_questions = none ∧
      (applyBridgePayload t payload).bridge_plan =
        some (match (match jOptD (jGet payload "plan_markdown") with
            | some v => some v
            | none => jOptD (jGet payload "plan")) with
          | some (Json.jobj fs) => dumps2 0 (Json.jobj fs)
          | none => ""
          | some v => pyStrip (pyStr v))) ∧
    (∀ (t : TaskStatus) (payload : JObj),
      jStrIs (jGet payload "stage") "needs_input" = false →
      jStrIs (jGet payload "stage") "plan_ready" = false →
      (applyBridgePayload t payload).bridge_stage = BridgeStage.none ∧
      (applyBridgePayload t payload).bridge_questions = none ∧
      (applyBridgePayload t payload).bridge_plan = none) ∧
    (∀ s : TMState, Reachable s → ∀ p ∈ s.tasks ++ s.completed, bridgeOk p.2) := by
  refine ⟨?_, ?_, ?_, ?_⟩
  · intro t payload h
    unfold applyBridgePayload
    rw [if_pos h]
    exact ⟨rfl, rfl, rfl⟩
  · intro t payload h
    have hne : ¬ jStrIs (jGet payload "stage") "needs_input" = true := by
      intro hni
      unfold jStrIs at h hni
      cases hv : jGet payload "stage" with
      | none => rw [hv] at hni; simp at hni
      | some v =>
        rw [hv] at h hni
        cases v <;> simp_all
    unfold applyBridgePayload
    rw [if_neg hne, if_pos h]
    exact ⟨rfl, rfl, rfl⟩
  · intro t payload h1 h2
    unfold applyBridgePayload
    rw [if_neg (by rw [h1]; exact Bool.false_ne_true),
        if_neg (by rw [h2]; exact Bool.false_ne_true)]
    exact ⟨rfl, rfl, rfl⟩
  · intro s hs p hp
    exact ((reachable_inv hs).1 p hp).1

/-- C7 witness: the spec's round-trip payloads: `needs_input` stores the
question list and clears the plan; `plan_ready` stores the plan and clears
the questions; an unrecognized stage resets everything; and a reachable
record satisfies the exclusion invariant. -/
theorem C7_bridge_payload_exclusive_witness :
    (applyBridgePayload exRec0 c7NeedsPay).bridge_questions = some ["Which env?"] ∧
    (applyBridgePayload exRec0 c7NeedsPay).bridge_plan = none ∧
    (applyBridgePayload exRec0 c7PlanPay).bridge_plan = some "Step 1..." ∧
    (applyBridgePayload exRec0 c7PlanPay).bridge_questions = none ∧
    (applyBridgePayload exRec0 c7OtherPay).bridge_stage = BridgeStage.none ∧
    bridgeOk (newTask exReq "t1" 0) := by
  have h1 := C7_bridge_payload_exclusive.1 exRec0 c7NeedsPay rfl
  have h2 := C7_bridge_payload_exclusive.2.1 exRec0 c7PlanPay rfl
  have h3 := C7_bridge_payload_exclusive.2.2.1 exRec0 c7OtherPay rfl rfl
  have h4 := C7_bridge_payload_exclusive.2.2.2 c9s1
    (Reachable.step (Reachable.init 4 50)
      (Step.create (emptyTM 4 50) exReq "t1" 0 ⟨rfl, rfl⟩))
    ("t1", newTask exReq "t1" 0) (by exact List.mem_cons_self _ _)
  exact ⟨h1.2.2, h1.2.1, h2.2.2, h2.2.1, h3.1, h4⟩

theorem mem_listTasks {s : TMState} {f : Option String} {t : TaskStatus}
    (h : t ∈ listTasks s f) :
    ∃ p, (p ∈ s.tasks ∨ p ∈ s.completed) ∧ p.2 = t := by
  unfold listTasks at h
  dsimp only at h
  have h1 := (List.mergeSort_perm _ _).mem_iff.mp h
  have h2 : t ∈ (s.tasks.map Prod.snd) ++ (s.completed.map Prod.snd) := by
    cases f with
    | none => exact h1
    | some str =>
      dsimp only at h1
      by_cases he : str = ""
      · rw [if_pos he] at h1; exact h1
      · rw [if_neg he] at h1
        exact List.mem_of_mem_filter h1
  rcases List.mem_append.mp h2 with h3 | h3
  · rcases List.mem_map.mp h3 with ⟨p, hp, hpt⟩
    exact ⟨p, Or.inl hp, hpt⟩
  · rcases List.mem_map.mp h3 with ⟨p, hp, hpt⟩
    exact ⟨p, Or.inr hp, hpt⟩

/-- C8: after every operation the archive holds at most `max_completed`
entries; eviction is exactly dropping the oldest-archived entries (archival
insertion order) until the bound holds; keys are unique across the stores
in every reachable state; and anything Get or List returns is an entry of
the stores — so an identifier dropped by eviction, being absent from both
stores, is retrievable through neither. -/
theorem C8_archive_bound_eviction :
    (∀ s : TMState, Reachable s → s.completed.length ≤ s.maxCompleted) ∧
    (∀ (maxC : Nat) (l : List (String × TaskStatus)),
      evict maxC l = l.drop (l.length - maxC)) ∧
    (∀ s : TMState, Reachable s → (odKeys (s.tasks ++ s.completed)).Nodup) ∧
    (∀ (s : TMState) (k : String) (t : TaskStatus), getTask s k = some t →
      (k, t) ∈ s.tasks ∨ (k, t) ∈ s.completed) ∧
    (∀ (s : TMState) (f : Option String) (t : TaskStatus), Reachable s →
      t ∈ listTasks s f → (t.task_id, t) ∈ s.tasks ∨ (t.task_id, t) ∈ s.completed) := by
  refine ⟨fun s hs => (reachable_inv hs).2.1, evict_eq_drop,
    fun s hs => (reachable_inv hs).2.2, ?_, ?_⟩
  · intro s k t h
    unfold getTask at h
    cases hl : lookupOD s.tasks k with
    | some v =>
      rw [hl] at h
      have : v = t := by injection h
      exact Or.inl (this ▸ lookupOD_mem hl)
    | none =>
      rw [hl] at h
      exact Or.inr (lookupOD_mem h)
  · intro s f t hs hmem
    rcases mem_listTasks hmem with ⟨p, hp, hpt⟩
    have hinv := reachable_inv hs
    rcases hp with h1 | h1
    · have hk := (hinv.1 p (List.mem_append.mpr (Or.inl h1))).2
      left
      have : (t.task_id, t) = p := by
        rcases p with ⟨k, v⟩
        cases hpt
        simp_all
      rw [this]
      exact h1
    · have hk := (hinv.1 p (List.mem_append.mpr (Or.inr h1))).2
      right
      have : (t.task_id, t) = p := by
        rcases p with ⟨k, v⟩
        cases hpt
        simp_all
      rw [this]
      exact h1

/-- C8 witness: with archive capacity 1, archiving "b" after "a" evicts the
oldest entry "a": the bound holds on the reachable end state, "a" is gone
from Get, and "b" is still retrievable. -/
theorem C8_archive_bound_eviction_witness :
    c8s4.completed.length ≤ c8s4.maxCompleted ∧
    getTask c8s4 "a" = none ∧
    (getTask c8s4 "b").map (fun t => t.status) = some Status.failed := by
  have hr : Reachable c8s4 :=
    Reachable.step
      (Reachable.step
        (Reachable.step
          (Reachable.step (Reachable.init 4 1)
            (Step.create (emptyTM 4 1) exReq "a" 0 ⟨rfl, rfl⟩))
          (Step.create c8s1 exReq "b" 1 ⟨rfl, rfl⟩))
        (Step.cancel c8s2 "a" 2))
      (Step.cancel c8s3 "b" 3)
  exact ⟨C8_archive_bound_eviction.1 c8s4 hr, by decide, by decide⟩

/-- C5 counterexample: the claim's "full captured stderr text if
non-empty" does not match the code, which strips the decoded stderr and
gates on the stripped text.  With no parsed message and a nonzero exit, a
whitespace-only stderr ("  \n" — non-empty as captured) yields the generic
message rather than the stderr text, and a padded stderr "err\n" yields
"err", not the full text. -/
theorem C5_stderr_strip_counterexample :
    pyStrip "  \n" = "" ∧
    (applyExit exRec0 2 7 (readCodexOutput []).1 (readCodexOutput []).2
      "  \n").error = some "Exited with code 2" ∧
    (applyExit exRec0 2 7 (readCodexOutput []).1 (readCodexOutput []).2
      "err\n").error = some "err" :=
  ⟨rfl, rfl, rfl⟩

/-- C9: the claim fails on the code.  Submit "t1"; `_run_task` captures the
record reference (line 113) and suspends in the spawn await (line 119);
Cancel lands during that await, finds the record still `pending` with no
process registered, fails it with `completed_at` set, and archives it; the
spawn then completes and the resumed `_run_task` sets the captured —
already archived — record to `status="running"` (lines 141-142) without
clearing `completed_at`.  In the resulting reachable state, Get returns a
record with a `running` status and a non-null completion timestamp for the
whole runtime of the (never-signalled) process — exactly what the claim
says is never observed. -/
theorem C9_cancel_spawn_race :
    Reachable c9b3 ∧
    (getTask c9b3 "t1").map (fun t => t.status) = some Status.running ∧
    (getTask c9b3 "t1").map (fun t => t.completed_at) = some (some 5) := by
  refine ⟨?_, by decide, by decide⟩
  exact Reachable.step
    (Reachable.step
      (Reachable.step (Reachable.init 4 50)
        (Step.create (emptyTM 4 50) exReq "t1" 0 ⟨rfl, rfl⟩))
      (Step.cancel c9b1 "t1" 5))
    (Step.spawnOk c9b2 "t1" 99)
